import Mathlib

/-!
Verification development for the TAMS data getter scraper (src/src/main.js).
JavaScript strings are modelled as lists of character codes (`JStr`); the
browser-automation and HTTP collaborators (selenium-webdriver, axios) are
modelled by explicit outcome values fed to the embedded control flow.
-/

/-- A JavaScript string, modelled as its list of character codes. -/
abbrev JStr := List Nat

/-- Embed a Lean string literal as a `JStr` (list of character codes). -/
def js (s : String) : JStr := s.toList.map Char.toNat

/-- Character codes treated as whitespace by JavaScript's `String.prototype.trim`
(space, tab, LF, VT, FF, CR, NBSP, BOM, LS, PS). -/
def isJsWhitespace (c : Nat) : Bool :=
  c = 32 || c = 9 || c = 10 || c = 11 || c = 12 || c = 13 ||
  c = 160 || c = 65279 || c = 8232 || c = 8233

/-- Drop trailing characters satisfying `p` (the right-hand half of `trim`). -/
def dropEndWhile (p : Nat → Bool) (l : JStr) : JStr :=
  (l.reverse.dropWhile p).reverse

/-- JavaScript `s.trim()`: drop leading and trailing whitespace. -/
def jsTrim (l : JStr) : JStr :=
  dropEndWhile isJsWhitespace (l.dropWhile isJsWhitespace)

/-- One character step of a global single-character regex replace: `a` becomes `b`. -/
def replCode (a b c : Nat) : Nat := if c = a then b else c

/-- JavaScript `s.replace(/a/g, b)` for single characters `a`, `b`. -/
def jsReplaceAll (a b : Nat) (l : JStr) : JStr := l.map (replCode a b)

/-- JavaScript `toLowerCase`, restricted to ASCII (the only characters the
scraped portal's header texts use): `A`..`Z` (65..90) shift by 32. -/
def lowerCode (c : Nat) : Nat := if 65 ≤ c ∧ c ≤ 90 then c + 32 else c

/-- JavaScript `s.toLowerCase()` over the ASCII model. -/
def jsToLower (l : JStr) : JStr := l.map lowerCode

/-- JavaScript `hay.includes(needle)`: contiguous-substring test. -/
def jsIncludes (hay needle : JStr) : Bool := decide (needle <:+: hay)

/-! ## Attendance month/year computation (src/src/main.js lines 292-311) -/

/-- JavaScript's `%` operator on integers: remainder truncating toward zero. -/
def jsMod (a b : Int) : Int := Int.tmod a b

/-- The month-name table of `main` (src/src/main.js lines 292-295). -/
def months : List String :=
  ["January", "February", "March", "April", "May", "June",
   "July", "August", "September", "October", "November", "December"]

/-- `adjustedMonth` of `main` (line 301): `((currentMonth + increment - 1) % 12) + 1`
with JavaScript's truncating `%`. `currentMonth` is 1-based (`getMonth() + 1`). -/
def adjustedMonth (currentMonth increment : Int) : Int :=
  jsMod (currentMonth + increment - 1) 12 + 1

/-- `adjustedYear` of `main` (lines 302-309): start from the current year and
apply the two rollover corrections guarded on the computed `adjustedMonth`. -/
def adjustedYear (currentMonth currentYear increment : Int) : Int :=
  let m := adjustedMonth currentMonth increment
  if m = 12 ∧ increment = -1 then currentYear - 1
  else if m = 1 ∧ increment = 1 then currentYear + 1
  else currentYear

/-- JavaScript array indexing `l[i]` with a possibly negative index:
out-of-range access yields `undefined`, modelled as `none`. -/
def jsIndex (l : List String) (i : Int) : Option String :=
  if h : 0 ≤ i ∧ i.toNat < l.length then some (l.get ⟨i.toNat, h.2⟩) else none

/-- `selectedMonth` of `main` (line 311): `months[adjustedMonth - 1]`. -/
def selectedMonth (currentMonth increment : Int) : Option String :=
  jsIndex months (adjustedMonth currentMonth increment - 1)

/-! ## Connectivity check (src/src/main.js lines 59-85) -/

/-- Outcome of one `axios.get` attempt: a resolved response carrying an HTTP
status, a timeout rejection (`ECONNABORTED`), or any other connection error. -/
inductive AttemptOutcome
  | response (status : Nat)
  | connTimeout
  | connError
deriving DecidableEq

/-- The success test of `checkInternet` (line 63): the attempt resolved and
`response.status === 200`. -/
def attemptSucceeds (o : AttemptOutcome) : Bool :=
  match o with
  | .response s => s == 200
  | .connTimeout => false
  | .connError => false

/-- A fatal termination: `await driver.quit()` followed by `process.exit(code)`. -/
structure FatalExit where
  driverQuit : Bool
  exitCode : Nat
deriving DecidableEq

/-- Observable outcome of `checkInternet`: either the function returns a value
(recording which attempt succeeded and how many 1-second sleeps ran before it),
or the process terminates fatally (recording the sleeps that ran). -/
inductive CheckOutcome
  | returns (value : Bool) (attemptNo : Nat) (sleeps : Nat)
  | fatal (f : FatalExit) (sleeps : Nat)
deriving DecidableEq

/-- The retry loop of `checkInternet` (lines 60-81): `rem` attempts remain,
the next is numbered `attempt`; a failed attempt that is not the last is
followed by a 1-second sleep; exhaustion quits the driver and exits with 1. -/
def checkGo (attempts : Nat → AttemptOutcome) : Nat → Nat → Nat → CheckOutcome
  | 0, _, sleeps => .fatal ⟨true, 1⟩ sleeps
  | rem + 1, attempt, sleeps =>
    if attemptSucceeds (attempts attempt) then .returns true attempt sleeps
    else if 0 < rem then checkGo attempts rem (attempt + 1) (sleeps + 1)
    else checkGo attempts rem (attempt + 1) sleeps

/-- `checkInternet` (lines 59-85) at its call site's defaults: retries = 3,
attempts numbered from 1. The environment supplies each attempt's outcome. -/
def checkInternet (attempts : Nat → AttemptOutcome) : CheckOutcome :=
  checkGo attempts 3 1 0

/-- Modelled from the spec: the class of HTTP success statuses (2xx). Used only
to state the spec's "HTTP-success status" reading against the code. -/
def isHttpSuccessStatus (s : Nat) : Bool := 200 ≤ s && s < 300

/-- How `main`'s connectivity guard resolves (lines 275-279): if `checkInternet`
terminated the process the guard is never reached; otherwise the guarded
no-internet branch runs exactly when the returned value is falsy. -/
inductive MainStep
  | exitedDuringCheck
  | noInternetBranch
  | proceed
deriving DecidableEq

/-- The orchestrator's guard `if (!(await checkInternet())) { ... }`
(src/src/main.js lines 275-279). -/
def mainConnectivityStep (attempts : Nat → AttemptOutcome) : MainStep :=
  match checkInternet attempts with
  | .fatal _ _ => .exitedDuringCheck
  | .returns v _ _ => if v then .proceed else .noInternetBranch

/-! ## Element locator (src/src/main.js lines 118-152) -/

/-- The locator strategies the scraper uses, as a closed variant
(`By.ID`, `By.NAME`, `By.TAG_NAME`, `By.XPATH`). -/
inductive LocBy
  | byId
  | byName
  | byTag
  | byXPath
deriving DecidableEq

/-- A DOM element: a unique key, the attributes the locator strategies test,
the XPath expressions it satisfies, and the keys of all its ancestors. -/
structure DomNode where
  key : Nat
  tag : String
  idAttr : String
  nameAttr : String
  xpathMatches : List String
  ancestors : List Nat
deriving DecidableEq

/-- Whether a node matches a locator strategy/value pair. -/
def nodeMatches (b : LocBy) (loc : String) (n : DomNode) : Bool :=
  match b with
  | .byId => n.idAttr = loc
  | .byName => n.nameAttr = loc
  | .byTag => n.tag = loc
  | .byXPath => n.xpathMatches.contains loc

/-- Whether a node lies inside the given scope (`none` is the driver, i.e.
the whole document). -/
def withinScope (scope : Option DomNode) (n : DomNode) : Bool :=
  match scope with
  | none => true
  | some p => n.ancestors.contains p.key

/-- The faults a selenium call can raise, discriminated the way the catch
block of `processElement` discriminates `error.name`. -/
inductive SelErr
  | timeoutError
  | noSuchElementError
  | otherError (msg : String)
deriving DecidableEq

/-- Outcomes of the three selenium calls `processElement` can make; each field
records what the browser environment made that call produce. -/
structure SelEnv where
  waitSingle : Except SelErr DomNode
  findScoped : Except SelErr DomNode
  waitMultiple : Except SelErr (List DomNode)

/-- Result of `processElement`: the not-found sentinel (`null`), one element,
or a list of elements. The function cannot raise: this type is its codomain. -/
inductive PEResult
  | sentinel
  | single (e : DomNode)
  | many (es : List DomNode)
deriving DecidableEq

/-- The catch block of `processElement` (lines 141-151): each of the three
branches (`TimeoutError`, `NoSuchElementError`, anything else) returns `null`. -/
def catchToSentinel (e : SelErr) : PEResult :=
  match e with
  | .timeoutError => .sentinel
  | .noSuchElementError => .sentinel
  | .otherError _ => .sentinel

/-- `processElement` (lines 119-152): a missing locator returns the sentinel;
with `multiple` it returns the result of `driver.wait(until.elementsLocated)`;
otherwise it waits via `until.elementLocated` and then re-finds the element
under `searchParent`; every fault funnels through the catch block. -/
def processElement (locator : Option String) (multiple : Bool) (env : SelEnv) :
    PEResult :=
  match locator with
  | none => .sentinel
  | some _ =>
    if multiple then
      match env.waitMultiple with
      | .ok es => .many es
      | .error e => catchToSentinel e
    else
      match env.waitSingle with
      | .error e => catchToSentinel e
      | .ok _ =>
        match env.findScoped with
        | .ok el => .single el
        | .error e => catchToSentinel e

/-- Models selenium's `driver.wait(until.elementLocated(by, locator), timeout)`:
a document-wide search; no match within the timeout raises `TimeoutError`. -/
def untilElementLocated (doc : List DomNode) (b : LocBy) (loc : String) :
    Except SelErr DomNode :=
  match doc.filter (nodeMatches b loc) with
  | [] => .error .timeoutError
  | e :: _ => .ok e

/-- Models selenium's `driver.wait(until.elementsLocated(by, locator), timeout)`:
a document-wide search returning all matches in document order; no match within
the timeout raises `TimeoutError`. -/
def untilElementsLocated (doc : List DomNode) (b : LocBy) (loc : String) :
    Except SelErr (List DomNode) :=
  match doc.filter (nodeMatches b loc) with
  | [] => .error .timeoutError
  | e :: es => .ok (e :: es)

/-- Models selenium's `searchParent.findElement(by, locator)`: a search scoped
to the parent node (the whole document when the scope is the driver); no match
raises `NoSuchElementError`. -/
def findElementIn (doc : List DomNode) (scope : Option DomNode) (b : LocBy)
    (loc : String) : Except SelErr DomNode :=
  match doc.filter (fun n => nodeMatches b loc n && withinScope scope n) with
  | [] => .error .noSuchElementError
  | e :: _ => .ok e

/-- The selenium environment `processElement` sees when the document is `doc`
and the caller passed `parent` as the scope (lines 125-139): the two waits are
driver-wide; only the scoped re-find uses `searchParent = parent || driver`. -/
def mkSelEnv (doc : List DomNode) (parent : Option DomNode) (b : LocBy)
    (loc : String) : SelEnv :=
  { waitSingle := untilElementLocated doc b loc
    findScoped := findElementIn doc parent b loc
    waitMultiple := untilElementsLocated doc b loc }

/-- `processElement` run against a concrete document and parent scope. -/
def processElementDOM (doc : List DomNode) (parent : Option DomNode) (b : LocBy)
    (loc : Option String) (multiple : Bool) : PEResult :=
  processElement loc multiple (mkSelEnv doc parent b (loc.getD ""))

/-- Example fixture (C3): a table row. -/
def exRow : DomNode := ⟨1, "tr", "", "", [], [0]⟩

/-- Example fixture (C3): a cell inside `exRow`. -/
def exTdIn : DomNode := ⟨2, "td", "", "", [], [0, 1]⟩

/-- Example fixture (C3): a cell of some other row, outside `exRow`. -/
def exTdOut : DomNode := ⟨3, "td", "", "", [], [0]⟩

/-- Example fixture (C3): a document holding both cells. -/
def exDoc : List DomNode := [exRow, exTdIn, exTdOut]

/-- Example fixture (C2 witness): a lone table node. -/
def exTable : DomNode := ⟨0, "table", "", "", [], []⟩

/-- Example fixture (C2 witness): an environment whose multiple-wait succeeds. -/
def exEnv : SelEnv :=
  { waitSingle := .error .timeoutError
    findScoped := .error .noSuchElementError
    waitMultiple := .ok [exTable] }

/-! ## Table parser (src/src/main.js lines 154-210) -/

/-- Header normalization (line 179):
`text.trim().replace(/\n/g, ' ').replace(/ /g, '_').toLowerCase()`. -/
def normalizeHeader (t : JStr) : JStr :=
  jsToLower (jsReplaceAll 32 95 (jsReplaceAll 10 32 (jsTrim t)))

/-- The per-character action of the three normalization maps combined
(newline to space, then space to underscore, then lowercase). -/
def normChar (c : Nat) : Nat := lowerCode (replCode 32 95 (replCode 10 32 c))

/-- The column-exclusion test (line 200):
`header.includes('action') || header.includes('attachment')`. -/
def excludedHeader (h : JStr) : Bool :=
  jsIncludes h (js "action") || jsIncludes h (js "attachment")

/-- A parsed record: the key/value pairs assigned into `rowData` in order. -/
abbrev Rec := List (JStr × JStr)

/-- The per-row loop of `scrapeTableData` (lines 197-205): walk the headers by
index; an excluded header contributes nothing (its cell is skipped with it);
a missing cell (`cells[i]` undefined) contributes the empty string; a present
cell contributes its trimmed text. -/
def rowData : List JStr → List JStr → Rec
  | [], _ => []
  | h :: hs, [] =>
    if excludedHeader h then rowData hs []
    else (h, []) :: rowData hs []
  | h :: hs, c :: cs =>
    if excludedHeader h then rowData hs cs
    else (h, jsTrim c) :: rowData hs cs

/-- The row loop of `scrapeTableData` (lines 193-207): rows whose cell lookup
returned the sentinel are skipped (`continue`); the rest produce one record. -/
def scrapeRows (headers : List JStr) (rows : List (Option (List JStr))) :
    List Rec :=
  rows.filterMap (fun cells => cells.map (fun cs => rowData headers cs))

/-- `scrapeTableData` (lines 154-210) with the element lookups abstracted to
their text results: a missing table/header/body stage yields the empty list;
otherwise headers are normalized and the rows are parsed. -/
def scrapeTableData (headerTexts : Option (List JStr))
    (bodyRows : Option (List (Option (List JStr)))) : List Rec :=
  match headerTexts with
  | none => []
  | some hts =>
    match bodyRows with
    | none => []
    | some rs => scrapeRows (hts.map normalizeHeader) rs

/-! ## Report accumulation and the Aggregate (src/src/main.js lines 284-394) -/

/-- The per-report accumulation (lines 373-376 and 382-386): each pass's
scraped list is pushed onto `tableData` only when non-empty. -/
def collectPasses (passes : List (List Rec)) : List (List Rec) :=
  passes.foldl (fun acc p => if 0 < p.length then acc ++ [p] else acc) []

/-- `tableData.flat()` (line 390). -/
def flattenReport (tableData : List (List Rec)) : List Rec :=
  tableData.flatten

/-- The Aggregate construction (lines 287-394): iterate the reports in order;
a report is stored under its name only when its accumulated `tableData` is
non-empty, and what is stored is the flattened record list. -/
def buildAggregate (reports : List (JStr × List (List Rec))) :
    List (JStr × List Rec) :=
  reports.foldl
    (fun acc r =>
      let tableData := collectPasses r.2
      if 0 < tableData.length then acc ++ [(r.1, flattenReport tableData)]
      else acc)
    []

/-! ## Navigator (src/src/main.js lines 87-103) -/

/-- The keyword list of `navigate` (line 90). -/
def filingKeywords : List JStr :=
  [js "overtime", js "officialbusiness", js "leave"]

/-- The branch condition of `navigate` (line 90):
some keyword is a substring of the lowercased report name. -/
def hasFilingKeyword (url : JStr) : Bool :=
  filingKeywords.any (fun kw => jsIncludes (jsToLower url) kw)

/-- Modelled from the spec: `new URL(rel, base).href` is external (WHATWG URL)
library code; the spec describes it as "joining against the configured base
URL", modelled as concatenation onto a directory-style base. -/
def joinUrl (base rel : JStr) : JStr := base ++ rel

/-- The `full_url` computation of `navigate` (lines 89-94): prepend `filing/`
exactly when a keyword matches, then join against the base URL. -/
def navigateFullUrl (base url : JStr) : JStr :=
  if hasFilingKeyword url then joinUrl base (js "filing/" ++ url)
  else joinUrl base url

theorem checkInternet_unfold (attempts : Nat → AttemptOutcome) :
    checkInternet attempts =
      (if attemptSucceeds (attempts 1) then .returns true 1 0
       else if attemptSucceeds (attempts 2) then .returns true 2 1
       else if attemptSucceeds (attempts 3) then .returns true 3 2
       else .fatal ⟨true, 1⟩ 2) := rfl

/-- C1: at the failing input (current month January, offset -1) the code
computes adjusted month 0 — not December (12) — leaves the year unchanged,
and the month-name lookup `months[-1]` is `undefined`. -/
theorem adjustedMonth_january_prev_bug :
    adjustedMonth 1 (-1) = 0 ∧
    adjustedYear 1 2024 (-1) = 2024 ∧
    selectedMonth 1 (-1) = none := by decide

/-! ## Helper lemmas -/

theorem catchToSentinel_eq (e : SelErr) : catchToSentinel e = .sentinel := by
  cases e <;> rfl

theorem dropEndWhile_eq_rdropWhile (p : Nat → Bool) (l : JStr) :
    dropEndWhile p l = List.rdropWhile p l := rfl

theorem dropWhile_cons_fixed {p : Nat → Bool} {a : Nat} {l : JStr}
    (h : List.dropWhile p (a :: l) = a :: l) : p a = false := by
  have h2 := List.dropWhile_eq_self_iff.mp h (by simp)
  simpa using h2

theorem dropWhile_fixed_of_prefix {p : Nat → Bool} {m t : JStr}
    (hm : List.dropWhile p m = m) (ht : t <+: m) : List.dropWhile p t = t := by
  cases t with
  | nil => rfl
  | cons a t2 =>
    obtain ⟨r, hr⟩ := ht
    have ha : p a = false := by
      apply dropWhile_cons_fixed (l := t2 ++ r)
      rw [List.cons_append] at hr
      rw [hr]
      exact hm
    rw [List.dropWhile_cons_of_neg (by simp [ha])]

theorem dropWhile_map_fixed {p : Nat → Bool} {g : Nat → Nat} {l : JStr}
    (hg : ∀ c, p c = false → p (g c) = false)
    (h : List.dropWhile p l = l) : List.dropWhile p (l.map g) = l.map g := by
  cases l with
  | nil => rfl
  | cons a t =>
    have ha := dropWhile_cons_fixed h
    rw [List.map_cons, List.dropWhile_cons_of_neg (by simp [hg a ha])]

theorem dropEnd_map_fixed {p : Nat → Bool} {g : Nat → Nat} {l : JStr}
    (hg : ∀ c, p c = false → p (g c) = false)
    (h : dropEndWhile p l = l) : dropEndWhile p (l.map g) = l.map g := by
  have h2 : List.dropWhile p l.reverse = l.reverse := by
    have h3 := congrArg List.reverse h
    rw [dropEndWhile, List.reverse_reverse] at h3
    exact h3
  have h4 := dropWhile_map_fixed hg h2
  rw [dropEndWhile, ← List.map_reverse, h4, List.map_reverse, List.reverse_reverse]

theorem jsTrim_dropWhile_fixed (s : JStr) :
    List.dropWhile isJsWhitespace (jsTrim s) = jsTrim s := by
  apply dropWhile_fixed_of_prefix (m := List.dropWhile isJsWhitespace s)
  · exact List.dropWhile_idempotent _ _
  · rw [jsTrim, dropEndWhile_eq_rdropWhile]
    exact List.rdropWhile_prefix _ _

theorem jsTrim_dropEnd_fixed (s : JStr) :
    dropEndWhile isJsWhitespace (jsTrim s) = jsTrim s := by
  rw [jsTrim]
  simp only [dropEndWhile_eq_rdropWhile]
  exact List.rdropWhile_idempotent _ _

theorem normChar_not_ws : ∀ c, isJsWhitespace c = false →
    isJsWhitespace (normChar c) = false := by
  intro c h
  simp only [isJsWhitespace, normChar, replCode, lowerCode, Bool.or_eq_false_iff,
    decide_eq_false_iff_not] at h ⊢
  split_ifs <;> omega

theorem normChar_idem (c : Nat) : normChar (normChar c) = normChar c := by
  simp only [normChar, replCode, lowerCode]
  split_ifs <;> omega

theorem normalizeHeader_eq_map (t : JStr) :
    normalizeHeader t = (jsTrim t).map normChar := by
  simp [normalizeHeader, jsToLower, jsReplaceAll, List.map_map, normChar,
    Function.comp]

theorem jsTrim_map_normChar_fixed (s : JStr) :
    jsTrim ((jsTrim s).map normChar) = (jsTrim s).map normChar := by
  have h1 := dropWhile_map_fixed normChar_not_ws (jsTrim_dropWhile_fixed s)
  have h2 := dropEnd_map_fixed normChar_not_ws (jsTrim_dropEnd_fixed s)
  rw [jsTrim, h1, h2]

/-! ## Claim theorems -/

/-- C6: header normalization (trim, then newlines to spaces, then spaces to
underscores, then lowercase) is a total function on strings and is idempotent;
in particular `" Time In \n"` normalizes to `"time_in"`. -/
theorem normalizeHeader_idempotent :
    (∀ s : JStr, normalizeHeader (normalizeHeader s) = normalizeHeader s) ∧
    normalizeHeader (js " Time In \n") = js "time_in" := by
  refine ⟨fun s => ?_, by decide⟩
  simp only [normalizeHeader_eq_map]
  rw [jsTrim_map_normChar_fixed, List.map_map]
  exact List.map_congr_left (fun c _ => normChar_idem c)

/-- C2: `processElement` never raises: its result is always the sentinel, one
element, or a list of elements; a missing locator yields the sentinel; in both
the single and multiple modes every underlying fault (timeout, not-found, or
any other error) yields the sentinel, and success yields the element or the
ordered element list the underlying calls produced. -/
theorem processElement_sentinel_contract :
    ∀ (loc : Option String) (mult : Bool) (env : SelEnv),
      (processElement loc mult env = .sentinel ∨
        (∃ e, processElement loc mult env = .single e) ∨
        (∃ es, processElement loc mult env = .many es)) ∧
      (loc = none → processElement loc mult env = .sentinel) ∧
      (mult = true →
        (∀ err, env.waitMultiple = .error err →
          processElement loc mult env = .sentinel) ∧
        (∀ es, loc ≠ none → env.waitMultiple = .ok es →
          processElement loc mult env = .many es)) ∧
      (mult = false →
        (∀ err, env.waitSingle = .error err →
          processElement loc mult env = .sentinel) ∧
        (∀ err, env.findScoped = .error err →
          processElement loc mult env = .sentinel) ∧
        (∀ x el, loc ≠ none → env.waitSingle = .ok x → env.findScoped = .ok el →
          processElement loc mult env = .single el)) := by
  intro loc mult env
  obtain ⟨ws, fs, wm⟩ := env
  cases loc <;> cases mult <;> cases ws <;> cases fs <;> cases wm <;>
    simp [processElement, catchToSentinel_eq]

theorem processElement_sentinel_contract_witness :
    processElement (some "table") true exEnv = .many [exTable] :=
  (((processElement_sentinel_contract (some "table") true exEnv).2.2.1 rfl).2)
    [exTable] (by simp) rfl

/-- C3: at the failing input — a document whose parent row contains one `td`
while another `td` sits outside it — the multiple-element mode returns every
matching element of the document, including the one outside the parent scope
(the claim says only elements within the parent are returned); the
single-element mode does honor the scope. -/
theorem processElement_multiple_ignores_scope :
    processElementDOM exDoc (some exRow) .byTag (some "td") true
        = .many [exTdIn, exTdOut] ∧
    withinScope (some exRow) exTdOut = false ∧
    processElementDOM exDoc (some exRow) .byTag (some "td") false
        = .single exTdIn := by decide

theorem rowData_keys (headers : List JStr) :
    ∀ cells : List JStr,
      (rowData headers cells).map Prod.fst
        = headers.filter (fun h => !excludedHeader h) := by
  induction headers with
  | nil => intro cells; cases cells <;> rfl
  | cons h hs ih =>
    intro cells
    cases cells with
    | nil =>
      by_cases hx : excludedHeader h <;>
        simp [rowData, List.filter_cons, hx, ih]
    | cons c cs =>
      by_cases hx : excludedHeader h <;>
        simp [rowData, List.filter_cons, hx, ih]

/-- C4: every key of every record the table parser produces is a non-excluded
header, so no key has `action` or `attachment` as a substring, however many
such columns the table has. -/
theorem scraped_keys_never_excluded :
    ∀ (headers : List JStr) (rows : List (Option (List JStr))) (r : Rec)
      (k v : JStr), r ∈ scrapeRows headers rows → (k, v) ∈ r →
      ¬ (js "action" <:+: k) ∧ ¬ (js "attachment" <:+: k) := by
  intro headers rows r k v hr hkv
  obtain ⟨cells, hcl, hcr⟩ := List.mem_filterMap.mp hr
  cases cells with
  | none => simp at hcr
  | some cs =>
    simp only [Option.map_some', Option.some.injEq] at hcr
    subst hcr
    have hk : k ∈ (rowData headers cs).map Prod.fst :=
      List.mem_map.mpr ⟨(k, v), hkv, rfl⟩
    rw [rowData_keys] at hk
    have h2 := (List.mem_filter.mp hk).2
    simp only [Bool.not_eq_true', excludedHeader, jsIncludes,
      Bool.or_eq_false_iff, decide_eq_false_iff_not] at h2
    exact h2

theorem scraped_keys_never_excluded_witness :
    ¬ (js "action" <:+: js "date") ∧ ¬ (js "attachment" <:+: js "date") :=
  scraped_keys_never_excluded [js "date", js "action"] [some [js "x", js "y"]]
    (rowData [js "date", js "action"] [js "x", js "y"]) (js "date") (js "x")
    (by decide) (by decide)

theorem mem_collectPasses_aux :
    ∀ (l : List (List Rec)) (acc : List (List Rec)) (q : List Rec),
      q ∈ l.foldl (fun acc p => if 0 < p.length then acc ++ [p] else acc) acc →
      q ∈ acc ∨ q ∈ l := by
  intro l
  induction l with
  | nil => intro acc q h; exact Or.inl h
  | cons p l ih =>
    intro acc q h
    simp only [List.foldl_cons] at h
    rcases ih _ q h with hacc | hl
    · by_cases hp : 0 < p.length
      · rw [if_pos hp] at hacc
        rcases List.mem_append.mp hacc with h1 | h2
        · exact Or.inl h1
        · simp only [List.mem_singleton] at h2
          exact Or.inr (h2 ▸ List.mem_cons_self p l)
      · rw [if_neg hp] at hacc
        exact Or.inl hacc
    · exact Or.inr (List.mem_cons_of_mem p hl)

theorem mem_collectPasses_sub {l : List (List Rec)} {q : List Rec}
    (h : q ∈ collectPasses l) : q ∈ l := by
  rcases mem_collectPasses_aux l [] q h with h0 | h1
  · simp at h0
  · exact h1

/-- C5: every record in a report's final flattened list has exactly the key
list of non-excluded normalized headers, and a row shorter than the header
list contributes the empty string for each missing cell rather than a fault
or a missing key. -/
theorem record_shape_invariant :
    (∀ (hts : List JStr) (passes : List (List (Option (List JStr)))) (r : Rec),
      r ∈ flattenReport (collectPasses
            (passes.map (fun rs => scrapeTableData (some hts) (some rs)))) →
      r.map Prod.fst
        = (hts.map normalizeHeader).filter (fun h => !excludedHeader h)) ∧
    (∀ (headers cells : List JStr) (i : Nat) (h2 : i < headers.length),
      cells.length ≤ i → excludedHeader (headers.get ⟨i, h2⟩) = false →
      (headers.get ⟨i, h2⟩, ([] : JStr)) ∈ rowData headers cells) := by
  constructor
  · intro hts passes r hr
    rw [flattenReport] at hr
    obtain ⟨pl, hpl, hrpl⟩ := List.mem_flatten.mp hr
    obtain ⟨rs, hrs, hfeq⟩ := List.mem_map.mp (mem_collectPasses_sub hpl)
    subst hfeq
    simp only [scrapeTableData] at hrpl
    obtain ⟨cells, hcl, hcr⟩ := List.mem_filterMap.mp hrpl
    cases cells with
    | none => simp at hcr
    | some cs =>
      simp only [Option.map_some', Option.some.injEq] at hcr
      subst hcr
      exact rowData_keys _ cs
  · intro headers
    induction headers with
    | nil => intro cells i h2; exact absurd h2 (by simp)
    | cons h hs ih =>
      intro cells i h2 hlen hex
      cases i with
      | zero =>
        have hc : cells = [] := List.length_eq_zero.mp (Nat.le_zero.mp hlen)
        subst hc
        simp only [List.get_eq_getElem, List.getElem_cons_zero] at hex ⊢
        simp [rowData, hex]
      | succ n =>
        have h2n : n < hs.length := by simpa using h2
        simp only [List.get_eq_getElem, List.getElem_cons_succ] at hex ⊢
        have hexg : excludedHeader (hs.get ⟨n, h2n⟩) = false := hex
        cases cells with
        | nil =>
          have hmem := ih [] n h2n (by simp) hexg
          simp only [List.get_eq_getElem] at hmem
          by_cases hh : excludedHeader h <;> simp [rowData, hh, hmem]
        | cons c cs =>
          have hlen2 : cs.length ≤ n := by simpa using hlen
          have hmem := ih cs n h2n hlen2 hexg
          simp only [List.get_eq_getElem] at hmem
          by_cases hh : excludedHeader h <;> simp [rowData, hh, hmem]

theorem record_shape_invariant_witness :
    (rowData [js "date"] [js "07:55"]).map Prod.fst
        = ([js "date"].map normalizeHeader).filter (fun h => !excludedHeader h) ∧
    (js "date", ([] : JStr)) ∈ rowData [js "date"] [] := by
  constructor
  · exact record_shape_invariant.1 [js "date"] [[some [js "07:55"]]]
      (rowData [js "date"] [js "07:55"]) (by decide)
  · have h0 := record_shape_invariant.2 [js "date"] [] 0 (by decide)
      (by decide) (by decide)
    simpa using h0

theorem collectPasses_all_nil :
    ∀ (passes : List (List Rec)), (∀ p ∈ passes, p = []) →
      collectPasses passes = [] := by
  have aux : ∀ (l : List (List Rec)) (acc : List (List Rec)),
      (∀ p ∈ l, p = []) →
      l.foldl (fun acc p => if 0 < p.length then acc ++ [p] else acc) acc
        = acc := by
    intro l
    induction l with
    | nil => intro acc _; rfl
    | cons p l ih =>
      intro acc hl
      have hp : p = [] := hl p (List.mem_cons_self p l)
      subst hp
      simp only [List.foldl_cons, List.length_nil, Nat.lt_irrefl, if_neg,
        Nat.not_lt_zero]
      exact ih acc (fun q hq => hl q (List.mem_cons_of_mem _ hq))
  intro passes h
  exact aux passes [] h

theorem collectPasses_mem_ne_nil :
    ∀ (passes : List (List Rec)) (p : List Rec),
      p ∈ collectPasses passes → p ≠ [] := by
  have aux : ∀ (l : List (List Rec)) (acc : List (List Rec)),
      (∀ p ∈ acc, p ≠ []) →
      ∀ p ∈ l.foldl (fun acc q => if 0 < q.length then acc ++ [q] else acc) acc,
        p ≠ [] := by
    intro l
    induction l with
    | nil => intro acc hacc p hp; exact hacc p hp
    | cons q l ih =>
      intro acc hacc p hp
      simp only [List.foldl_cons] at hp
      refine ih _ ?_ p hp
      intro r hr
      by_cases hq : 0 < q.length
      · rw [if_pos hq] at hr
        rcases List.mem_append.mp hr with h1 | h2
        · exact hacc r h1
        · simp only [List.mem_singleton] at h2
          subst h2
          exact List.length_pos.mp hq
      · rw [if_neg hq] at hr
        exact hacc r hr
  intro passes p hp
  exact aux passes [] (by simp) p hp

theorem buildAggregate_not_mem_aux (name : JStr) :
    ∀ (reports : List (JStr × List (List Rec)))
      (acc : List (JStr × List Rec)),
      (∀ passes, (name, passes) ∈ reports → ∀ p ∈ passes, p = []) →
      (∀ l, (name, l) ∉ acc) →
      ∀ l, (name, l) ∉ reports.foldl
        (fun acc r =>
          let tableData := collectPasses r.2
          if 0 < tableData.length then acc ++ [(r.1, flattenReport tableData)]
          else acc)
        acc := by
  intro reports
  induction reports with
  | nil => intro acc _ hacc l; exact hacc l
  | cons r rest ih =>
    intro acc hrep hacc l
    simp only [List.foldl_cons]
    refine ih _ (fun ps hps => hrep ps (List.mem_cons_of_mem _ hps)) ?_ l
    intro l2
    by_cases hn : r.1 = name
    · have hall : ∀ p ∈ r.2, p = [] := by
        refine hrep r.2 ?_
        rw [← hn]
        exact List.mem_cons_self r rest
      have hcp : collectPasses r.2 = [] := collectPasses_all_nil r.2 hall
      simp only [hcp, List.length_nil, Nat.lt_irrefl, if_neg, Nat.not_lt_zero]
      exact hacc l2
    · intro hmem
      by_cases hc : 0 < (collectPasses r.2).length
      · rw [if_pos hc] at hmem
        rcases List.mem_append.mp hmem with h1 | h2
        · exact hacc l2 h1
        · simp only [List.mem_singleton, Prod.mk.injEq] at h2
          exact hn h2.1.symm
      · rw [if_neg hc] at hmem
        exact hacc l2 hmem

theorem buildAggregate_entries_aux :
    ∀ (reports : List (JStr × List (List Rec)))
      (acc : List (JStr × List Rec)),
      (∀ e ∈ acc, e.2 ≠ []) →
      ∀ e ∈ reports.foldl
        (fun acc r =>
          let tableData := collectPasses r.2
          if 0 < tableData.length then acc ++ [(r.1, flattenReport tableData)]
          else acc)
        acc, e.2 ≠ [] := by
  intro reports
  induction reports with
  | nil => intro acc hacc e he; exact hacc e he
  | cons r rest ih =>
    intro acc hacc e he
    simp only [List.foldl_cons] at he
    refine ih _ ?_ e he
    intro f hf
    by_cases hc : 0 < (collectPasses r.2).length
    · rw [if_pos hc] at hf
      rcases List.mem_append.mp hf with h1 | h2
      · exact hacc f h1
      · simp only [List.mem_singleton] at h2
        subst h2
        obtain ⟨q, hq⟩ := List.exists_mem_of_length_pos hc
        have hqn := collectPasses_mem_ne_nil r.2 q hq
        simp only [flattenReport, ne_eq, List.flatten_eq_nil_iff]
        intro hall
        exact hqn (hall q hq)
    · rw [if_neg hc] at hf
      exact hacc f hf

/-- C7: a report whose every pass scraped zero records never appears as a key
of the final Aggregate, and every report that does appear carries a non-empty
flattened record list. -/
theorem aggregate_omits_empty_reports :
    ∀ (reports : List (JStr × List (List Rec))) (name : JStr),
      ((∀ passes, (name, passes) ∈ reports → ∀ p ∈ passes, p = []) →
        ∀ l, (name, l) ∉ buildAggregate reports) ∧
      (∀ l, (name, l) ∈ buildAggregate reports → l ≠ []) := by
  intro reports name
  constructor
  · intro hall l
    exact buildAggregate_not_mem_aux name reports [] hall (by simp) l
  · intro l hmem
    have := buildAggregate_entries_aux reports [] (by simp) (name, l) hmem
    exact this

theorem aggregate_omits_empty_reports_witness :
    (js "attendance", ([] : List Rec))
        ∉ buildAggregate [(js "attendance", [[], []])] ∧
    ([[(js "a", js "b")]] : List Rec) ≠ [] := by
  constructor
  · refine (aggregate_omits_empty_reports
      [(js "attendance", [[], []])] (js "attendance")).1 ?_ []
    intro passes hps
    simp only [List.mem_singleton, Prod.mk.injEq] at hps
    rw [hps.2]
    intro p hp
    simp only [List.mem_cons, List.mem_singleton, List.not_mem_nil] at hp
    rcases hp with h1 | h1 | h1
    · exact h1
    · exact h1
    · exact absurd h1 (by simp)
  · exact (aggregate_omits_empty_reports
      [(js "leave", [[[(js "a", js "b")]]])] (js "leave")).2
      [[(js "a", js "b")]] (by decide)

/-- C8 counterexample: status 204 is an HTTP-success status, yet when every
attempt resolves with 204 the check does not succeed — it exhausts its three
attempts (two sleeps) and terminates fatally. -/
theorem checkInternet_httpSuccess_claim_cex :
    isHttpSuccessStatus 204 = true ∧
    checkInternet (fun _ => .response 204) = .fatal ⟨true, 1⟩ 2 := by decide

/-- C8 (amended): the check makes at most 3 attempts with one 1-second sleep
between consecutive attempts; it returns true as soon as an attempt resolves
with HTTP status exactly 200 (any other resolved status counts as a failed
attempt); if all 3 attempts fail it quits the driver and exits with code 1,
returning no value to its caller. -/
theorem checkInternet_retry_contract :
    ∀ (attempts : Nat → AttemptOutcome),
      (attemptSucceeds (attempts 1) = true →
        checkInternet attempts = .returns true 1 0) ∧
      (attemptSucceeds (attempts 1) = false →
        attemptSucceeds (attempts 2) = true →
        checkInternet attempts = .returns true 2 1) ∧
      (attemptSucceeds (attempts 1) = false →
        attemptSucceeds (attempts 2) = false →
        attemptSucceeds (attempts 3) = true →
        checkInternet attempts = .returns true 3 2) ∧
      (attemptSucceeds (attempts 1) = false →
        attemptSucceeds (attempts 2) = false →
        attemptSucceeds (attempts 3) = false →
        checkInternet attempts = .fatal ⟨true, 1⟩ 2) ∧
      (∀ o : AttemptOutcome, attemptSucceeds o = true ↔ o = .response 200) := by
  intro attempts
  refine ⟨?_, ?_, ?_, ?_, ?_⟩
  · intro h1
    rw [checkInternet_unfold, if_pos h1]
  · intro h1 h2
    rw [checkInternet_unfold, if_neg (by simp [h1]), if_pos h2]
  · intro h1 h2 h3
    rw [checkInternet_unfold, if_neg (by simp [h1]), if_neg (by simp [h2]),
      if_pos h3]
  · intro h1 h2 h3
    rw [checkInternet_unfold, if_neg (by simp [h1]), if_neg (by simp [h2]),
      if_neg (by simp [h3])]
  · intro o
    cases o with
    | response s => simp [attemptSucceeds]
    | connTimeout => simp [attemptSucceeds]
    | connError => simp [attemptSucceeds]

theorem checkInternet_retry_contract_witness :
    checkInternet (fun n => if n = 2 then .response 200 else .connError)
      = .returns true 2 1 :=
  (checkInternet_retry_contract
    (fun n => if n = 2 then .response 200 else .connError)).2.1
    (by decide) (by decide)

/-- C9: the Navigator resolves a report name by joining against the base URL
and prepends the `filing/` segment exactly when the lowercased name has one of
`overtime`, `officialbusiness`, `leave` as a substring; in particular
`attendance` resolves to the plain joined path. -/
theorem navigateFullUrl_filing_resolution :
    ∀ base url : JStr,
      (hasFilingKeyword url = true ↔
        ∃ kw, kw ∈ filingKeywords ∧ kw <:+: jsToLower url) ∧
      (hasFilingKeyword url = true →
        navigateFullUrl base url = joinUrl base (js "filing/" ++ url)) ∧
      (hasFilingKeyword url = false →
        navigateFullUrl base url = joinUrl base url) ∧
      hasFilingKeyword (js "attendance") = false ∧
      navigateFullUrl base (js "attendance") = joinUrl base (js "attendance") := by
  intro base url
  refine ⟨?_, ?_, ?_, by decide, ?_⟩
  · simp [hasFilingKeyword, jsIncludes, List.any_eq_true]
  · intro h
    rw [navigateFullUrl, if_pos h]
  · intro h
    rw [navigateFullUrl, if_neg (by simp [h])]
  · rw [navigateFullUrl, if_neg (by decide)]

theorem navigateFullUrl_filing_resolution_witness :
    navigateFullUrl (js "https://tams.example/") (js "Leave")
      = joinUrl (js "https://tams.example/") (js "filing/" ++ js "Leave") :=
  (navigateFullUrl_filing_resolution (js "https://tams.example/")
    (js "Leave")).2.1 (by decide)

/-- C10: `checkInternet` never hands a falsy value back to `main` — every run
either returns `true` or terminates the process — so the orchestrator's
no-internet branch can never execute. -/
theorem mainConnectivityStep_branch_unreachable :
    ∀ (attempts : Nat → AttemptOutcome),
      (∃ n s, checkInternet attempts = .returns true n s ∧
        mainConnectivityStep attempts = .proceed) ∨
      (∃ s, checkInternet attempts = .fatal ⟨true, 1⟩ s ∧
        mainConnectivityStep attempts = .exitedDuringCheck) := by
  intro attempts
  unfold mainConnectivityStep
  rw [checkInternet_unfold]
  split_ifs
  · exact Or.inl ⟨1, 0, rfl, rfl⟩
  · exact Or.inl ⟨2, 1, rfl, rfl⟩
  · exact Or.inl ⟨3, 2, rfl, rfl⟩
  · exact Or.inr ⟨2, rfl, rfl⟩
